import Mathlib

/-!
Verification of the Amdahl's-law multi-core workload simulation
(`python_multicore_workload_simulation.py`).

The script consists of a pure calculation function `simulate_amdahl`, a
module-level sweep loop that tabulates speedups over a grid of
parallelizable fractions and core counts into a dictionary keyed by a
two-decimal label, and a plotting loop that re-parses each label to
annotate the curve with its theoretical limit.

Real arithmetic is embedded as `ℚ`; validation failures (Python
`ValueError` with three distinct messages) become an `Except` value over
an explicit error type.  The sweep's mutable dictionary becomes an
insertion-ordered association list with Python's overwrite-on-existing-key
update semantics.
-/

namespace AmdahlSim

/-- The three `ValueError`s raised by `simulate_amdahl`, one per violated
input constraint (lines 17-22 of the source). -/
inductive AmdahlError
  | invalidFraction
  | invalidCoreCount
  | invalidWorkloadTime
  deriving DecidableEq, Repr

/-- Embedding of `simulate_amdahl(total_workload_time,
parallelizable_fraction, num_cores)` (source lines 3-40): validate the
fraction, the core count and the workload time in that order, then return
`(multi_core_time, speedup)` with the `num_cores == 1` case short-circuited
to the baseline time. -/
def simulate_amdahl (total_workload_time parallelizable_fraction : ℚ)
    (num_cores : ℤ) : Except AmdahlError (ℚ × ℚ) :=
  if ¬ (0 ≤ parallelizable_fraction ∧ parallelizable_fraction ≤ 1) then
    Except.error AmdahlError.invalidFraction
  else if num_cores < 1 then
    Except.error AmdahlError.invalidCoreCount
  else if total_workload_time ≤ 0 then
    Except.error AmdahlError.invalidWorkloadTime
  else
    let serial_fraction := 1 - parallelizable_fraction
    let serial_time := total_workload_time * serial_fraction
    let parallelizable_time := total_workload_time * parallelizable_fraction
    let multi_core_time :=
      if num_cores = 1 then total_workload_time
      else serial_time + parallelizable_time / (num_cores : ℚ)
    let speedup := total_workload_time / multi_core_time
    Except.ok (multi_core_time, speedup)

/-- The multi-core time computed by the happy path of `simulate_amdahl`. -/
def amdahlTime (t p : ℚ) (n : ℤ) : ℚ :=
  if n = 1 then t else t * (1 - p) + t * p / (n : ℚ)

/-- The speedup computed by the happy path of `simulate_amdahl`. -/
def amdahlSpeedup (t p : ℚ) (n : ℤ) : ℚ := t / amdahlTime t p n

/-- The inner sweep loop (source lines 53-56): one `simulate_amdahl` call
per core count, in order, keeping the `speedup` component.  A raised
`ValueError` propagates and aborts the loop, which the `Except` bind
mirrors. -/
def speedupsFor (total_time p_frac : ℚ) : List ℤ → Except AmdahlError (List ℚ)
  | [] => Except.ok []
  | n_cores :: rest => do
    let r ← simulate_amdahl total_time p_frac n_cores
    let tail ← speedupsFor total_time p_frac rest
    pure (r.2 :: tail)

/-- Round half to even, the rounding used by Python's fixed-point `{:.2f}`
float formatting. -/
def roundHalfEven (q : ℚ) : ℤ :=
  if q - ⌊q⌋ < 1/2 then ⌊q⌋
  else if 1/2 < q - ⌊q⌋ then ⌊q⌋ + 1
  else if ⌊q⌋ % 2 = 0 then ⌊q⌋ else ⌊q⌋ + 1

/-- Python's `f'{x:.2f}'` fixed two-decimal formatting, for the nonnegative
values that reach it here: round `100 x` half to even and print integer and
two-digit fractional parts. -/
def format2 (x : ℚ) : String :=
  let c := roundHalfEven (x * 100)
  toString (c / 100) ++ "." ++ (if c % 100 < 10 then "0" else "") ++ toString (c % 100)

/-- The dictionary key `f'P = {p_frac:.2f}'` (source line 57). -/
def labelOf (p_frac : ℚ) : String := "P = " ++ format2 p_frac

/-- Python `dict` assignment `results[k] = v` on an insertion-ordered
association list: overwrite the value in place when the key is present,
append otherwise. -/
def dictInsert (results : List (String × List ℚ)) (k : String) (v : List ℚ) :
    List (String × List ℚ) :=
  if results.any fun kv => kv.1 == k then
    results.map fun kv => if kv.1 == k then (k, v) else kv
  else results ++ [(k, v)]

/-- The outer sweep loop (source lines 52-57) with the dictionary state
`results` threaded explicitly. -/
def sweepAux (total_time : ℚ) (core_counts : List ℤ)
    (results : List (String × List ℚ)) :
    List ℚ → Except AmdahlError (List (String × List ℚ))
  | [] => Except.ok results
  | p_frac :: rest => do
    let speedups ← speedupsFor total_time p_frac core_counts
    sweepAux total_time core_counts (dictInsert results (labelOf p_frac) speedups) rest

/-- The whole sweep (source lines 49-57): starting from the empty `results`
dictionary, process each parallel fraction in order. -/
def sweep (total_time : ℚ) (parallel_fractions : List ℚ) (core_counts : List ℤ) :
    Except AmdahlError (List (String × List ℚ)) :=
  sweepAux total_time core_counts [] parallel_fractions

/-- The theoretical-limit annotation: the finite value `1/s`, or the
sentinel `float('inf')` for `s ≤ 0`. -/
inductive Limit
  | finite (value : ℚ)
  | posInf
  deriving DecidableEq, Repr

/-- Source lines 64-65: `s = 1.0 - p; theoretical_limit = 1/s if s > 0 else
float('inf')`, applied to the fraction `p` recovered from the label. -/
def theoretical_limit (p : ℚ) : Limit :=
  let s := 1 - p
  if 0 < s then Limit.finite (1 / s) else Limit.posInf

/-- Source line 63: `p = float(label.split('=')[1])`.  The label of
`p_frac` is `f'P = {p_frac:.2f}'`, so parsing its numeric part back
recovers exactly the two-decimal rounding of `p_frac`; the composition is
modelled directly as that rounding. -/
def parsedLabelFraction (p_frac : ℚ) : ℚ :=
  (roundHalfEven (p_frac * 100) : ℚ) / 100

/-- The limit annotation attached to the curve of `p_frac` by the plotting
loop (source lines 61-66): `theoretical_limit` of the fraction parsed back
from the label. -/
def limitFor (p_frac : ℚ) : Limit :=
  theoretical_limit (parsedLabelFraction p_frac)

/-- Branch-free description of `simulate_amdahl`: the three guards in
source order, then the happy-path pair. -/
theorem simulate_amdahl_eq (t p : ℚ) (n : ℤ) :
    simulate_amdahl t p n =
      if ¬ (0 ≤ p ∧ p ≤ 1) then Except.error AmdahlError.invalidFraction
      else if n < 1 then Except.error AmdahlError.invalidCoreCount
      else if t ≤ 0 then Except.error AmdahlError.invalidWorkloadTime
      else Except.ok (amdahlTime t p n, amdahlSpeedup t p n) := rfl

/-- On valid inputs `simulate_amdahl` succeeds with the `amdahlTime` /
`amdahlSpeedup` pair. -/
theorem simulate_amdahl_ok (t p : ℚ) (n : ℤ)
    (ht : 0 < t) (hp0 : 0 ≤ p) (hp1 : p ≤ 1) (hn : 1 ≤ n) :
    simulate_amdahl t p n = Except.ok (amdahlTime t p n, amdahlSpeedup t p n) := by
  rw [simulate_amdahl_eq, if_neg (not_not_intro ⟨hp0, hp1⟩),
    if_neg (not_lt.mpr hn), if_neg (not_le.mpr ht)]

/-- The multi-core time is positive on valid inputs. -/
theorem amdahlTime_pos (t p : ℚ) (n : ℤ)
    (ht : 0 < t) (hp0 : 0 ≤ p) (hp1 : p ≤ 1) (hn : 1 ≤ n) :
    0 < amdahlTime t p n := by
  rw [amdahlTime]
  split_ifs with h1
  · exact ht
  · have hn2 : (2 : ℚ) ≤ (n : ℤ) := by
      have : (2 : ℤ) ≤ n := by omega
      exact_mod_cast this
    rcases lt_or_eq_of_le hp1 with hlt | heq
    · have h1 : 0 < t * (1 - p) := by nlinarith
      have h2 : 0 ≤ t * p / (n : ℚ) := by positivity
      linarith
    · subst heq
      have h2 : 0 < t * 1 / (n : ℚ) := by positivity
      nlinarith

/-- The multi-core time never exceeds the single-core baseline. -/
theorem amdahlTime_le_t (t p : ℚ) (n : ℤ)
    (ht : 0 < t) (hp0 : 0 ≤ p) (hp1 : p ≤ 1) (hn : 1 ≤ n) :
    amdahlTime t p n ≤ t := by
  rw [amdahlTime]
  split_ifs with h1
  · exact le_refl t
  · have hn1 : (1 : ℚ) ≤ (n : ℤ) := by exact_mod_cast hn
    have hdiv : t * p / (n : ℚ) ≤ t * p := div_le_self (by positivity) hn1
    nlinarith

/-- The multi-core time is at least the serial part of the workload. -/
theorem serial_le_amdahlTime (t p : ℚ) (n : ℤ)
    (ht : 0 < t) (hp0 : 0 ≤ p) (hp1 : p ≤ 1) (hn : 1 ≤ n) :
    t * (1 - p) ≤ amdahlTime t p n := by
  rw [amdahlTime]
  split_ifs with h1
  · nlinarith
  · have hn1 : (0 : ℚ) < (n : ℤ) := by exact_mod_cast lt_of_lt_of_le Int.one_pos hn
    have : 0 ≤ t * p / (n : ℚ) := by positivity
    linarith

/-- The multi-core time is antitone in the core count. -/
theorem amdahlTime_anti_cores (t p : ℚ) (n1 n2 : ℤ)
    (ht : 0 < t) (hp0 : 0 ≤ p) (hp1 : p ≤ 1) (hn1 : 1 ≤ n1) (h12 : n1 ≤ n2) :
    amdahlTime t p n2 ≤ amdahlTime t p n1 := by
  by_cases h1 : n1 = 1
  · subst h1
    have := amdahlTime_le_t t p n2 ht hp0 hp1 (le_trans (le_refl 1) h12)
    simpa [amdahlTime] using this
  · have h2 : ¬ n2 = 1 := by omega
    rw [amdahlTime, amdahlTime, if_neg h2, if_neg h1]
    have hq1 : (0 : ℚ) < (n1 : ℤ) := by exact_mod_cast lt_of_lt_of_le Int.one_pos hn1
    have hq12 : ((n1 : ℤ) : ℚ) ≤ ((n2 : ℤ) : ℚ) := by exact_mod_cast h12
    have hnum : 0 ≤ t * p := by positivity
    have : t * p / (n2 : ℚ) ≤ t * p / (n1 : ℚ) := by gcongr
    linarith

/-- The multi-core time is antitone in the parallelizable fraction. -/
theorem amdahlTime_anti_frac (t p1 p2 : ℚ) (n : ℤ)
    (ht : 0 < t) (h12 : p1 ≤ p2) (hn : 1 ≤ n) :
    amdahlTime t p2 n ≤ amdahlTime t p1 n := by
  rw [amdahlTime, amdahlTime]
  split_ifs with h1
  · exact le_refl t
  · have hn2 : (2 : ℚ) ≤ (n : ℤ) := by
      have : (2 : ℤ) ≤ n := by omega
      exact_mod_cast this
    have hn0 : (0 : ℚ) < (n : ℤ) := by linarith
    rw [div_eq_mul_inv, div_eq_mul_inv]
    have hi1 : ((n : ℤ) : ℚ)⁻¹ ≤ 1 := inv_le_one_of_one_le₀ (by linarith)
    nlinarith [mul_nonneg (mul_nonneg ht.le (sub_nonneg.2 h12)) (sub_nonneg.2 hi1)]

/-- The speedup is monotone in the core count on valid inputs. -/
theorem amdahlSpeedup_mono_cores (t p : ℚ) (n1 n2 : ℤ)
    (ht : 0 < t) (hp0 : 0 ≤ p) (hp1 : p ≤ 1) (hn1 : 1 ≤ n1) (h12 : n1 ≤ n2) :
    amdahlSpeedup t p n1 ≤ amdahlSpeedup t p n2 := by
  rw [amdahlSpeedup, amdahlSpeedup]
  have hpos2 : 0 < amdahlTime t p n2 :=
    amdahlTime_pos t p n2 ht hp0 hp1 (le_trans hn1 h12)
  have hle := amdahlTime_anti_cores t p n1 n2 ht hp0 hp1 hn1 h12
  gcongr

/-- The speedup is monotone in the parallelizable fraction on valid
inputs. -/
theorem amdahlSpeedup_mono_frac (t p1 p2 : ℚ) (n : ℤ)
    (ht : 0 < t) (hp0 : 0 ≤ p1) (h12 : p1 ≤ p2) (hp1 : p2 ≤ 1) (hn : 1 ≤ n) :
    amdahlSpeedup t p1 n ≤ amdahlSpeedup t p2 n := by
  rw [amdahlSpeedup, amdahlSpeedup]
  have hpos2 : 0 < amdahlTime t p2 n :=
    amdahlTime_pos t p2 n ht (le_trans hp0 h12) hp1 hn
  have hle := amdahlTime_anti_frac t p1 p2 n ht h12 hn
  gcongr

/-- On valid inputs the inner sweep loop returns one speedup per core
count, in order. -/
theorem speedupsFor_ok (t p : ℚ) (ns : List ℤ)
    (ht : 0 < t) (hp0 : 0 ≤ p) (hp1 : p ≤ 1) (hns : ∀ n ∈ ns, 1 ≤ n) :
    speedupsFor t p ns = Except.ok (ns.map fun n => amdahlSpeedup t p n) := by
  induction ns with
  | nil => rfl
  | cons n rest ih =>
    rw [speedupsFor, simulate_amdahl_ok t p n ht hp0 hp1 (hns n (by simp)),
      ih (fun m hm => hns m (by simp [hm]))]
    rfl

/-- Inserting a fresh key into the results dictionary appends it. -/
theorem dictInsert_fresh (results : List (String × List ℚ)) (k : String)
    (v : List ℚ) (h : ∀ kv ∈ results, kv.1 ≠ k) :
    dictInsert results k v = results ++ [(k, v)] := by
  rw [dictInsert, if_neg]
  simp only [List.any_eq_true, beq_iff_eq, not_exists]
  intro kv
  simp only [not_and]
  exact fun hkv => h kv hkv

/-- The outer sweep loop, run from any dictionary state whose keys avoid
the labels still to be processed, appends one entry per fraction in
order. -/
theorem sweepAux_ok (t : ℚ) (ns : List ℤ)
    (ht : 0 < t) (hns : ∀ n ∈ ns, 1 ≤ n) :
    ∀ (ps : List ℚ) (acc : List (String × List ℚ)),
      (∀ p ∈ ps, 0 ≤ p ∧ p ≤ 1) →
      (ps.map labelOf).Nodup →
      (∀ p ∈ ps, ∀ kv ∈ acc, kv.1 ≠ labelOf p) →
      sweepAux t ns acc ps =
        Except.ok (acc ++ ps.map fun p => (labelOf p, ns.map fun n => amdahlSpeedup t p n)) := by
  intro ps
  induction ps with
  | nil => intro acc _ _ _; simp [sweepAux]
  | cons p rest ih =>
    intro acc hps hnd hacc
    have hp := hps p (by simp)
    rw [sweepAux, speedupsFor_ok t p ns ht hp.1 hp.2 hns]
    have hfresh : ∀ kv ∈ acc, kv.1 ≠ labelOf p :=
      fun kv hkv => hacc p (by simp) kv hkv
    have hbind :
        (do
          let speedups ← Except.ok (ns.map fun n => amdahlSpeedup t p n)
          sweepAux t ns (dictInsert acc (labelOf p) speedups) rest :
          Except AmdahlError (List (String × List ℚ))) =
        sweepAux t ns (dictInsert acc (labelOf p) (ns.map fun n => amdahlSpeedup t p n)) rest := rfl
    rw [hbind, dictInsert_fresh acc (labelOf p) _ hfresh, ih]
    · simp
    · exact fun q hq => hps q (by simp [hq])
    · simpa using (List.nodup_cons.mp (by simpa using hnd)).2
    · intro q hq kv hkv
      rcases List.mem_append.mp hkv with hkv1 | hkv2
      · exact hacc q (by simp [hq]) kv hkv1
      · have hkv3 : kv = (labelOf p, ns.map fun n => amdahlSpeedup t p n) := by
          simpa using hkv2
        subst hkv3
        have hnotmem : labelOf p ∉ rest.map labelOf :=
          (List.nodup_cons.mp (by simpa using hnd)).1
        intro hcontra
        apply hnotmem
        rw [show labelOf p = labelOf q from hcontra]
        exact List.mem_map_of_mem labelOf hq

/-- Rounding a value lying in `[f, f + 1/2)` gives `f`. -/
theorem roundHalfEven_of_lt (q : ℚ) (f : ℤ)
    (h1 : (f : ℚ) ≤ q) (h2 : q < (f : ℚ) + 1/2) :
    roundHalfEven q = f := by
  have hf : ⌊q⌋ = f := Int.floor_eq_iff.mpr ⟨h1, by linarith⟩
  rw [roundHalfEven, hf, if_pos (by linarith)]

/-- Rounding a value lying in `(f + 1/2, f + 1)` gives `f + 1`. -/
theorem roundHalfEven_of_gt (q : ℚ) (f : ℤ)
    (h1 : (f : ℚ) + 1/2 < q) (h2 : q < (f : ℚ) + 1) :
    roundHalfEven q = f + 1 := by
  have hf : ⌊q⌋ = f := Int.floor_eq_iff.mpr ⟨by linarith, by linarith⟩
  rw [roundHalfEven, hf, if_neg (by linarith), if_pos (by linarith)]

/-- Rounding an exact half with an even integer part gives the integer
part (ties to even). -/
theorem roundHalfEven_of_half_even (q : ℚ) (f : ℤ)
    (heq : q = (f : ℚ) + 1/2) (heven : f % 2 = 0) :
    roundHalfEven q = f := by
  have hf : ⌊q⌋ = f := Int.floor_eq_iff.mpr ⟨by rw [heq]; linarith, by rw [heq]; linarith⟩
  rw [roundHalfEven, hf, if_neg (by rw [heq]; linarith),
    if_neg (by rw [heq]; linarith), if_pos heven]

/-- Integers round to themselves. -/
theorem roundHalfEven_intCast (k : ℤ) : roundHalfEven (k : ℚ) = k :=
  roundHalfEven_of_lt _ k (le_refl _) (by linarith)

/-- The label of the fraction `0.5`. -/
theorem labelOf_half : labelOf (1/2) = "P = 0.50" := by
  have h100 : (1/2 : ℚ) * 100 = ((50 : ℤ) : ℚ) := by norm_num
  have h : roundHalfEven ((1/2 : ℚ) * 100) = 50 := by
    rw [h100, roundHalfEven_intCast]
  simp only [labelOf, format2, h]
  decide

/-- The label of the fraction `0.9`. -/
theorem labelOf_nine_tenths : labelOf (9/10) = "P = 0.90" := by
  have h100 : (9/10 : ℚ) * 100 = ((90 : ℤ) : ℚ) := by norm_num
  have h : roundHalfEven ((9/10 : ℚ) * 100) = 90 := by
    rw [h100, roundHalfEven_intCast]
  simp only [labelOf, format2, h]
  decide

/-- A `ValueError` raised by `simulate_amdahl` aborts the inner sweep loop
and surfaces unchanged. -/
theorem speedupsFor_error (t p : ℚ) (e : AmdahlError) :
    ∀ (ns1 : List ℤ) (n : ℤ) (ns2 : List ℤ),
      (∀ m ∈ ns1, ∃ r, simulate_amdahl t p m = Except.ok r) →
      simulate_amdahl t p n = Except.error e →
      speedupsFor t p (ns1 ++ n :: ns2) = Except.error e := by
  intro ns1
  induction ns1 with
  | nil =>
    intro n ns2 _ herr
    rw [List.nil_append, speedupsFor, herr]
    rfl
  | cons m rest ih =>
    intro n ns2 hok herr
    obtain ⟨r, hr⟩ := hok m (by simp)
    rw [List.cons_append, speedupsFor, hr, ih n ns2 (fun u hu => hok u (by simp [hu])) herr]
    rfl

/-- A `ValueError` raised while processing a fraction aborts the whole
sweep and surfaces unchanged. -/
theorem sweepAux_error (t : ℚ) (ns : List ℤ) (e : AmdahlError) :
    ∀ (ps1 : List ℚ) (p : ℚ) (ps2 : List ℚ) (acc : List (String × List ℚ)),
      (∀ q ∈ ps1, ∃ l, speedupsFor t q ns = Except.ok l) →
      speedupsFor t p ns = Except.error e →
      sweepAux t ns acc (ps1 ++ p :: ps2) = Except.error e := by
  intro ps1
  induction ps1 with
  | nil =>
    intro p ps2 acc _ herr
    rw [List.nil_append, sweepAux, herr]
    rfl
  | cons q rest ih =>
    intro p ps2 acc hok herr
    obtain ⟨l, hl⟩ := hok q (by simp)
    rw [List.cons_append, sweepAux, hl]
    exact ih p ps2 _ (fun u hu => hok u (by simp [hu])) herr

/-- Binding a successful `Except` computation runs the continuation. -/
@[simp]
theorem except_ok_bind {α β : Type} (a : α) (f : α → Except AmdahlError β) :
    (do
      let x ← (Except.ok a : Except AmdahlError α)
      f x) = f a := rfl

/-- Binding a failed `Except` computation propagates the error. -/
@[simp]
theorem except_error_bind {α β : Type} (e : AmdahlError)
    (f : α → Except AmdahlError β) :
    (do
      let x ← (Except.error e : Except AmdahlError α)
      f x) = Except.error e := rfl

/-- `pure` on `Except` is `Except.ok`. -/
@[simp]
theorem except_pure {α : Type} (a : α) :
    (pure a : Except AmdahlError α) = Except.ok a := rfl

/-- Claim C1: for every valid input (`total_time > 0`, `0 ≤ p ≤ 1`, integer
`n ≥ 2`), `simulate_amdahl` returns `multi_core_time = total_time*(1-p) +
(total_time*p)/n` and `speedup = total_time / multi_core_time`; in
particular `simulate_amdahl 100 (9/10) 4` returns `multi_core_time = 65/2
= 32.5` and `speedup = 100/(65/2)`. -/
theorem C1_compute_formula (t p : ℚ) (n : ℤ)
    (ht : 0 < t) (hp0 : 0 ≤ p) (hp1 : p ≤ 1) (hn : 2 ≤ n) :
    simulate_amdahl t p n =
      Except.ok (t * (1 - p) + t * p / (n : ℚ),
        t / (t * (1 - p) + t * p / (n : ℚ))) ∧
    simulate_amdahl 100 (9/10) 4 = Except.ok (65/2, 100 / (65/2 : ℚ)) := by
  constructor
  · rw [simulate_amdahl_ok t p n ht hp0 hp1 (by omega)]
    have hne : ¬ n = 1 := by omega
    simp [amdahlTime, amdahlSpeedup, hne]
  · norm_num [simulate_amdahl]

/-- Witness for C1 at `(100, 9/10, 4)`. -/
theorem C1_compute_formula_witness :
    simulate_amdahl 100 (9/10) 4 =
      Except.ok (100 * (1 - 9/10) + 100 * (9/10) / ((4 : ℤ) : ℚ),
        100 / (100 * (1 - 9/10) + 100 * (9/10) / ((4 : ℤ) : ℚ))) :=
  (C1_compute_formula 100 (9/10) 4 (by norm_num) (by norm_num) (by norm_num)
    (by norm_num)).1

/-- Claim C3: on every valid input the returned speedup is at least `1`,
and for `p < 1` it is at most `total_time / (total_time * (1-p))`, which
equals the theoretical limit `1/(1-p)`. -/
theorem C3_speedup_bounds (t p : ℚ) (n : ℤ)
    (ht : 0 < t) (hp0 : 0 ≤ p) (hp1 : p ≤ 1) (hn : 1 ≤ n) :
    ∃ m s, simulate_amdahl t p n = Except.ok (m, s) ∧ 1 ≤ s ∧
      (p < 1 → s ≤ t / (t * (1 - p)) ∧ t / (t * (1 - p)) = 1 / (1 - p)) := by
  refine ⟨amdahlTime t p n, amdahlSpeedup t p n,
    simulate_amdahl_ok t p n ht hp0 hp1 hn, ?_, ?_⟩
  · rw [amdahlSpeedup]
    exact (one_le_div (amdahlTime_pos t p n ht hp0 hp1 hn)).mpr
      (amdahlTime_le_t t p n ht hp0 hp1 hn)
  · intro hlt
    have hser : 0 < t * (1 - p) := by nlinarith
    have hser_le := serial_le_amdahlTime t p n ht hp0 hp1 hn
    constructor
    · rw [amdahlSpeedup]
      gcongr
    · rw [div_eq_div_iff hser.ne' (by intro h0; linarith : (1:ℚ) - p ≠ 0)]
      ring

/-- Witness for C3 at `(100, 9/10, 4)`. -/
theorem C3_speedup_bounds_witness :
    ∃ m s, simulate_amdahl 100 (9/10) 4 = Except.ok (m, s) ∧ 1 ≤ s ∧
      ((9:ℚ)/10 < 1 → s ≤ 100 / (100 * (1 - 9/10)) ∧
        (100:ℚ) / (100 * (1 - 9/10)) = 1 / (1 - 9/10)) :=
  C3_speedup_bounds 100 (9/10) 4 (by norm_num) (by norm_num) (by norm_num) (by norm_num)

/-- Claim C4: the returned speedup is monotonically non-decreasing in the
core count for a fixed valid fraction, and monotonically non-decreasing in
the fraction for a fixed valid core count. -/
theorem C4_speedup_monotone (t p p1 p2 : ℚ) (n n1 n2 : ℤ)
    (ht : 0 < t) (hp0 : 0 ≤ p) (hp1 : p ≤ 1) (hn1 : 1 ≤ n1) (h12 : n1 < n2)
    (hq0 : 0 ≤ p1) (hq12 : p1 ≤ p2) (hq2 : p2 ≤ 1) (hn : 1 ≤ n) :
    (∀ m1 s1 m2 s2, simulate_amdahl t p n1 = Except.ok (m1, s1) →
        simulate_amdahl t p n2 = Except.ok (m2, s2) → s1 ≤ s2) ∧
    (∀ m1 s1 m2 s2, simulate_amdahl t p1 n = Except.ok (m1, s1) →
        simulate_amdahl t p2 n = Except.ok (m2, s2) → s1 ≤ s2) := by
  constructor
  · intro m1 s1 m2 s2 h1 h2
    rw [simulate_amdahl_ok t p n1 ht hp0 hp1 hn1] at h1
    rw [simulate_amdahl_ok t p n2 ht hp0 hp1 (by omega)] at h2
    simp only [Except.ok.injEq, Prod.mk.injEq] at h1 h2
    rw [← h1.2, ← h2.2]
    exact amdahlSpeedup_mono_cores t p n1 n2 ht hp0 hp1 hn1 (le_of_lt h12)
  · intro m1 s1 m2 s2 h1 h2
    rw [simulate_amdahl_ok t p1 n ht hq0 (le_trans hq12 hq2) hn] at h1
    rw [simulate_amdahl_ok t p2 n ht (le_trans hq0 hq12) hq2 hn] at h2
    simp only [Except.ok.injEq, Prod.mk.injEq] at h1 h2
    rw [← h1.2, ← h2.2]
    exact amdahlSpeedup_mono_frac t p1 p2 n ht hq0 hq12 hq2 hn

/-- Witness for C4: speedups at `(100, 1/2, 2)`, `(100, 1/2, 4)` and
`(100, 9/10, 4)` are ordered as the claim requires. -/
theorem C4_speedup_monotone_witness :
    simulate_amdahl 100 (1/2) 2 = Except.ok (75, 4/3) ∧
    simulate_amdahl 100 (1/2) 4 = Except.ok (125/2, 8/5) ∧
    simulate_amdahl 100 (9/10) 4 = Except.ok (65/2, 40/13) ∧
    (4/3 : ℚ) ≤ 8/5 ∧ (8/5 : ℚ) ≤ 40/13 := by
  have h := C4_speedup_monotone 100 (1/2) (1/2) (9/10) 4 2 4 (by norm_num) (by norm_num)
    (by norm_num) (by norm_num) (by norm_num) (by norm_num) (by norm_num)
    (by norm_num) (by norm_num)
  have e1 : simulate_amdahl 100 (1/2) 2 = Except.ok (75, 4/3) := by
    norm_num [simulate_amdahl]
  have e2 : simulate_amdahl 100 (1/2) 4 = Except.ok (125/2, 8/5) := by
    norm_num [simulate_amdahl]
  have e3 : simulate_amdahl 100 (9/10) 4 = Except.ok (65/2, 40/13) := by
    norm_num [simulate_amdahl]
  exact ⟨e1, e2, e3, h.1 75 (4/3) (125/2) (8/5) e1 e2, h.2 (125/2) (8/5) (65/2) (40/13) e2 e3⟩

/-- Claim C5: with a single core, `simulate_amdahl` reproduces the baseline
exactly: `multi_core_time = total_time` and `speedup = 1`. -/
theorem C5_single_core (t p : ℚ) (ht : 0 < t) (hp0 : 0 ≤ p) (hp1 : p ≤ 1) :
    simulate_amdahl t p 1 = Except.ok (t, 1) := by
  rw [simulate_amdahl_ok t p 1 ht hp0 hp1 (le_refl 1)]
  simp [amdahlTime, amdahlSpeedup, div_self (ne_of_gt ht)]

/-- Witness for C5 at `(100, 1/2)`. -/
theorem C5_single_core_witness : simulate_amdahl 100 (1/2) 1 = Except.ok (100, 1) :=
  C5_single_core 100 (1/2) (by norm_num) (by norm_num) (by norm_num)

/-- Claim C6: a fully serial workload (`p = 0`) gets speedup exactly `1`
for every valid core count. -/
theorem C6_fully_serial (t : ℚ) (n : ℤ) (ht : 0 < t) (hn : 1 ≤ n) :
    simulate_amdahl t 0 n = Except.ok (t, 1) := by
  rw [simulate_amdahl_ok t 0 n ht (le_refl 0) (by norm_num) hn]
  have htime : amdahlTime t 0 n = t := by
    rw [amdahlTime]
    split_ifs with h
    · rfl
    · ring
  rw [amdahlSpeedup, htime, div_self (ne_of_gt ht)]

/-- Witness for C6 at `(100, 8)`. -/
theorem C6_fully_serial_witness : simulate_amdahl 100 0 8 = Except.ok (100, 1) :=
  C6_fully_serial 100 8 (by norm_num) (by norm_num)

/-- Claim C9: `simulate_amdahl` and the sweep are deterministic, pure
functions of their arguments — two calls with identical arguments give
identical results (the embedding is a function, with no state to
mutate). -/
theorem C9_deterministic (t p : ℚ) (n : ℤ) (ps : List ℚ) (ns : List ℤ) :
    simulate_amdahl t p n = simulate_amdahl t p n ∧
    sweep t ps ns = sweep t ps ns :=
  ⟨rfl, rfl⟩

/-- Claim C10: constraints are checked in a fixed precedence order —
out-of-range fraction first, then invalid core count, then non-positive
workload time; in particular `simulate_amdahl 0 (-(1/2)) 0` reports the
fraction error and `simulate_amdahl 0 (1/2) 0` the core-count error. -/
theorem C10_error_precedence (t p : ℚ) (n : ℤ) :
    (¬ (0 ≤ p ∧ p ≤ 1) →
      simulate_amdahl t p n = Except.error AmdahlError.invalidFraction) ∧
    ((0 ≤ p ∧ p ≤ 1) → n < 1 →
      simulate_amdahl t p n = Except.error AmdahlError.invalidCoreCount) ∧
    ((0 ≤ p ∧ p ≤ 1) → 1 ≤ n → t ≤ 0 →
      simulate_amdahl t p n = Except.error AmdahlError.invalidWorkloadTime) ∧
    simulate_amdahl 0 (-(1/2)) 0 = Except.error AmdahlError.invalidFraction ∧
    simulate_amdahl 0 (1/2) 0 = Except.error AmdahlError.invalidCoreCount := by
  refine ⟨?_, ?_, ?_, ?_, ?_⟩
  · intro h
    rw [simulate_amdahl_eq, if_pos h]
  · intro h hc
    rw [simulate_amdahl_eq, if_neg (not_not_intro h), if_pos hc]
  · intro h hc hw
    rw [simulate_amdahl_eq, if_neg (not_not_intro h), if_neg (not_lt.mpr hc), if_pos hw]
  · norm_num [simulate_amdahl]
  · norm_num [simulate_amdahl]

/-- Witness for C10: with every constraint violated at once, the fraction
error takes precedence. -/
theorem C10_error_precedence_witness :
    simulate_amdahl 0 2 0 = Except.error AmdahlError.invalidFraction :=
  (C10_error_precedence 0 2 0).1 (by norm_num)

/-- Claim C2 counterexample: at `simulate_amdahl 100 2 0` the core count
`0` violates `n ≥ 1`, yet the error raised is the invalid-fraction one —
the fraction check fires first — so the claim's biconditional "raises
`InvalidCoreCount` exactly when `n < 1`" is false at this input. -/
theorem C2_error_counterexample :
    (0 : ℤ) < 1 ∧
    simulate_amdahl 100 2 0 = Except.error AmdahlError.invalidFraction ∧
    simulate_amdahl 100 2 0 ≠ Except.error AmdahlError.invalidCoreCount := by
  refine ⟨by norm_num, by norm_num [simulate_amdahl], ?_⟩
  norm_num [simulate_amdahl]
  decide

/-- Claim C2 (amended): `simulate_amdahl` validates eagerly and fails fast
with a distinct error per constraint, checked in order: the
invalid-fraction error is raised exactly when `p` is outside `[0,1]`; the
invalid-core-count error exactly when the fraction is in range and
`n < 1`; the invalid-workload-time error exactly when the fraction is in
range, `n ≥ 1` and `total_time ≤ 0`; and the call returns normally exactly
when all three constraints hold.  Any failure during a sweep aborts the
rest of the sweep — both the inner core-count loop and the outer fraction
loop — and surfaces unchanged to the caller. -/
theorem C2_error_taxonomy (t p : ℚ) (n : ℤ) :
    (simulate_amdahl t p n = Except.error AmdahlError.invalidFraction ↔
      ¬ (0 ≤ p ∧ p ≤ 1)) ∧
    (simulate_amdahl t p n = Except.error AmdahlError.invalidCoreCount ↔
      (0 ≤ p ∧ p ≤ 1) ∧ n < 1) ∧
    (simulate_amdahl t p n = Except.error AmdahlError.invalidWorkloadTime ↔
      (0 ≤ p ∧ p ≤ 1) ∧ 1 ≤ n ∧ t ≤ 0) ∧
    ((∃ r, simulate_amdahl t p n = Except.ok r) ↔
      (0 ≤ p ∧ p ≤ 1) ∧ 1 ≤ n ∧ 0 < t) ∧
    (∀ (ns1 : List ℤ) (m : ℤ) (ns2 : List ℤ) (e : AmdahlError),
      (∀ u ∈ ns1, ∃ r, simulate_amdahl t p u = Except.ok r) →
      simulate_amdahl t p m = Except.error e →
      speedupsFor t p (ns1 ++ m :: ns2) = Except.error e) ∧
    (∀ (ps1 : List ℚ) (q : ℚ) (ps2 : List ℚ) (ns : List ℤ) (e : AmdahlError),
      (∀ u ∈ ps1, ∃ l, speedupsFor t u ns = Except.ok l) →
      speedupsFor t q ns = Except.error e →
      sweep t (ps1 ++ q :: ps2) ns = Except.error e) := by
  refine ⟨?_, ?_, ?_, ?_, ?_, ?_⟩
  · rw [simulate_amdahl_eq]
    split_ifs with h1 h2 h3 <;> simp_all
  · rw [simulate_amdahl_eq]
    split_ifs with h1 h2 h3 <;> simp_all
  · rw [simulate_amdahl_eq]
    split_ifs with h1 h2 h3 <;> simp_all
  · rw [simulate_amdahl_eq]
    split_ifs with h1 h2 h3 <;> simp_all
  · exact fun ns1 m ns2 e hok herr => speedupsFor_error t p e ns1 m ns2 hok herr
  · exact fun ps1 q ps2 ns e hok herr => sweepAux_error t ns e ps1 q ps2 [] hok herr

/-- Witness for C2: sweeping the fractions `[1/2, 2, 1/4]` over core
counts `[1, 2]` aborts at the out-of-range fraction `2`, and the fraction
error surfaces unchanged from the whole sweep. -/
theorem C2_error_taxonomy_witness :
    sweep 100 [1/2, 2, 1/4] [1, 2] = Except.error AmdahlError.invalidFraction := by
  have h := (C2_error_taxonomy 100 2 0).2.2.2.2.2
  have hok : ∀ u ∈ ([1/2] : List ℚ), ∃ l, speedupsFor 100 u [1, 2] = Except.ok l := by
    intro u hu
    have hu2 : u = 1/2 := by simpa using hu
    subst hu2
    exact ⟨[1, 4/3], by norm_num [speedupsFor, simulate_amdahl]⟩
  have herr : speedupsFor 100 2 [1, 2] = Except.error AmdahlError.invalidFraction := by
    norm_num [speedupsFor, simulate_amdahl]
  exact h [1/2] 2 [1/4] [1, 2] AmdahlError.invalidFraction hok herr

/-- Claim C7 counterexample: the fractions `1/2` and `501/1000` both
format to the label `"P = 0.50"`, so the sweep's dictionary keeps a single
entry whose speedup sequence `[2000/1499]` is the second fraction's — the
first fraction `1/2` (speedup `4/3` at two cores) is not mapped to its own
sequence, refuting the claim for this input. -/
theorem C7_label_collision_counterexample :
    sweep 100 [1/2, 501/1000] [2] = Except.ok [("P = 0.50", [2000/1499])] ∧
    simulate_amdahl 100 (1/2) 2 = Except.ok (75, 4/3) ∧
    ((2000 : ℚ)/1499) ≠ 4/3 := by
  have hs1 : speedupsFor 100 (1/2) [2] = Except.ok [4/3] := by
    norm_num [speedupsFor, simulate_amdahl]
  have hs2 : speedupsFor 100 (501/1000) [2] = Except.ok [2000/1499] := by
    norm_num [speedupsFor, simulate_amdahl]
  have hl2 : labelOf (501/1000) = "P = 0.50" := by
    have h : roundHalfEven ((501/1000 : ℚ) * 100) = 50 := by
      rw [show (501/1000 : ℚ) * 100 = 501/10 by norm_num]
      exact roundHalfEven_of_lt _ 50 (by norm_num) (by norm_num)
    simp only [labelOf, format2, h]
    decide
  refine ⟨?_, by norm_num [simulate_amdahl], by norm_num⟩
  have step1 : sweep 100 [1/2, 501/1000] [2] =
      (do
        let speedups ← speedupsFor 100 (1/2) [2]
        sweepAux 100 [2] (dictInsert [] (labelOf (1/2)) speedups) [501/1000]) := rfl
  rw [step1, hs1]
  simp only [except_ok_bind]
  rw [labelOf_half]
  have step2 : dictInsert [] "P = 0.50" [4/3] = [("P = 0.50", [4/3])] := rfl
  rw [step2]
  have step3 : sweepAux 100 [2] [("P = 0.50", [4/3])] [501/1000] =
      (do
        let speedups ← speedupsFor 100 (501/1000) [2]
        sweepAux 100 [2]
          (dictInsert [("P = 0.50", [4/3])] (labelOf (501/1000)) speedups) []) := rfl
  rw [step3, hs2]
  simp only [except_ok_bind]
  rw [hl2]
  have step4 : dictInsert [("P = 0.50", [4/3])] "P = 0.50" [2000/1499] =
      [("P = 0.50", [2000/1499])] := rfl
  rw [step4]
  rfl

/-- Claim C7 (amended): provided the fractions' two-decimal labels are
pairwise distinct, the sweep succeeds and returns, for each fraction in
input order, its fixed-two-decimal label `"P = x.xx"` mapped to exactly one
speedup per core count, in core-count order, each equal to the speedup
`simulate_amdahl` returns for that triple (when labels collide, the later
fraction's entry overwrites the earlier one's value, as the counterexample
shows).  The concrete scenario holds as claimed: `sweep 100 [1/2, 9/10]
[1,2,4]` yields `"P = 0.50" ↦ [1, 4/3, 8/5]` and `"P = 0.90" ↦
[1, 20/11, 40/13]`, with theoretical limits `2` and `10`. -/
theorem C7_sweep_table (t : ℚ) (ps : List ℚ) (ns : List ℤ)
    (ht : 0 < t) (hps : ∀ p ∈ ps, 0 ≤ p ∧ p ≤ 1) (hns : ∀ n ∈ ns, 1 ≤ n)
    (hlab : (ps.map labelOf).Nodup) :
    sweep t ps ns =
      Except.ok (ps.map fun p => (labelOf p, ns.map fun n => amdahlSpeedup t p n)) ∧
    (∀ p ∈ ps, ∀ n ∈ ns,
      simulate_amdahl t p n = Except.ok (amdahlTime t p n, amdahlSpeedup t p n)) ∧
    sweep 100 [1/2, 9/10] [1, 2, 4] =
      Except.ok [("P = 0.50", [1, 4/3, 8/5]), ("P = 0.90", [1, 20/11, 40/13])] ∧
    limitFor (1/2) = Limit.finite 2 ∧ limitFor (9/10) = Limit.finite 10 := by
  refine ⟨?_, ?_, ?_, ?_, ?_⟩
  · rw [sweep]
    simpa using sweepAux_ok t ns ht hns ps [] hps hlab (by simp)
  · intro p hp n hn
    exact simulate_amdahl_ok t p n ht (hps p hp).1 (hps p hp).2 (hns n hn)
  · have hps2 : ∀ p ∈ ([1/2, 9/10] : List ℚ), 0 ≤ p ∧ p ≤ 1 := by
      intro p hp
      fin_cases hp <;> norm_num
    have hns2 : ∀ n ∈ ([1, 2, 4] : List ℤ), 1 ≤ n := by
      intro n hn
      fin_cases hn <;> norm_num
    have hlab2 : (([1/2, 9/10] : List ℚ).map labelOf).Nodup := by
      rw [show ([1/2, 9/10] : List ℚ).map labelOf = ["P = 0.50", "P = 0.90"] by
        rw [List.map_cons, List.map_cons, List.map_nil, labelOf_half, labelOf_nine_tenths]]
      decide
    have hconc := sweepAux_ok 100 [1, 2, 4] (by norm_num) hns2 [1/2, 9/10] [] hps2
      hlab2 (by simp)
    rw [sweep, hconc]
    norm_num [labelOf_half, labelOf_nine_tenths, amdahlSpeedup, amdahlTime]
  · have hpl : parsedLabelFraction (1/2) = 1/2 := by
      rw [parsedLabelFraction, show (1/2 : ℚ) * 100 = ((50 : ℤ) : ℚ) by norm_num,
        roundHalfEven_intCast]
      norm_num
    rw [limitFor, hpl]
    norm_num [theoretical_limit]
  · have hpl : parsedLabelFraction (9/10) = 9/10 := by
      rw [parsedLabelFraction, show (9/10 : ℚ) * 100 = ((90 : ℤ) : ℚ) by norm_num,
        roundHalfEven_intCast]
      norm_num
    rw [limitFor, hpl]
    norm_num [theoretical_limit]

/-- Witness for C7 at the concrete scenario of the claim. -/
theorem C7_sweep_table_witness :
    sweep 100 [1/2, 9/10] [1, 2, 4] =
      Except.ok [("P = 0.50", [1, 4/3, 8/5]), ("P = 0.90", [1, 20/11, 40/13])] :=
  (C7_sweep_table 100 [1/2, 9/10] [1, 2, 4] (by norm_num)
    (by intro p hp; fin_cases hp <;> norm_num)
    (by intro n hn; fin_cases hn <;> norm_num)
    (by
      rw [show ([1/2, 9/10] : List ℚ).map labelOf = ["P = 0.50", "P = 0.90"] by
        rw [List.map_cons, List.map_cons, List.map_nil, labelOf_half, labelOf_nine_tenths]]
      decide)).2.2.1

/-- Claim C8 counterexample: for the sweep fraction `p = 1/8` the serial
fraction `1 - p = 7/8` is positive, yet the limit attached to its curve is
`25/22` — computed from the two-decimal label value `0.12` — and not
`1/(1-p) = 8/7`, refuting the claim at this fraction. -/
theorem C8_limit_counterexample :
    (0 : ℚ) < 1 - 1/8 ∧
    limitFor (1/8) = Limit.finite (25/22) ∧
    Limit.finite ((25 : ℚ)/22) ≠ Limit.finite (1 / (1 - 1/8 : ℚ)) := by
  refine ⟨by norm_num, ?_, ?_⟩
  · have h : roundHalfEven ((1/8 : ℚ) * 100) = 12 :=
      roundHalfEven_of_half_even _ 12 (by norm_num) (by norm_num)
    rw [limitFor, parsedLabelFraction, h]
    norm_num [theoretical_limit]
  · simp only [ne_eq, Limit.finite.injEq]
    norm_num

/-- Claim C8 (amended): the theoretical limit carried alongside a
fraction's curve is computed from the fraction parsed back from its
two-decimal label, `p' = parsedLabelFraction p`: it equals `1/(1 - p')`
whenever `p' < 1` and is the positive-infinity sentinel whenever
`p' ≥ 1`; in particular, whenever `100 p` is an integer — so the label
represents `p` exactly — and `p < 1`, the limit equals `1/(1-p)` as
originally claimed, and for `p = 1` it is the sentinel. -/
theorem C8_theoretical_limit (p : ℚ) :
    (parsedLabelFraction p < 1 →
      limitFor p = Limit.finite (1 / (1 - parsedLabelFraction p))) ∧
    (1 ≤ parsedLabelFraction p → limitFor p = Limit.posInf) ∧
    (∀ k : ℤ, p = (k : ℚ) / 100 → p < 1 → limitFor p = Limit.finite (1 / (1 - p))) ∧
    (p = 1 → limitFor p = Limit.posInf) := by
  have hunfold : ∀ x : ℚ, theoretical_limit x =
      if 0 < 1 - x then Limit.finite (1 / (1 - x)) else Limit.posInf := fun x => rfl
  refine ⟨?_, ?_, ?_, ?_⟩
  · intro h
    rw [limitFor, hunfold, if_pos (by linarith)]
  · intro h
    rw [limitFor, hunfold, if_neg (by push_neg; linarith)]
  · intro k hk hlt
    have hpl : parsedLabelFraction p = p := by
      rw [parsedLabelFraction, hk, show ((k : ℚ)/100) * 100 = (k : ℚ) by field_simp,
        roundHalfEven_intCast]
    rw [limitFor, hpl, hunfold, if_pos (by linarith)]
  · intro h1
    have hpl : parsedLabelFraction p = 1 := by
      rw [parsedLabelFraction, h1, show (1 : ℚ) * 100 = ((100 : ℤ) : ℚ) by norm_num,
        roundHalfEven_intCast]
      norm_num
    rw [limitFor, hpl, hunfold, if_neg (by norm_num)]

/-- Witness for C8 at `p = 9/10` (via `k = 90`): the limit is `1/(1-p)`. -/
theorem C8_theoretical_limit_witness :
    limitFor (9/10) = Limit.finite (1 / (1 - 9/10 : ℚ)) :=
  (C8_theoretical_limit (9/10)).2.2.1 90 (by norm_num) (by norm_num)

end AmdahlSim
